import Mathlib

/-!
Shallow embedding of the heuristic waste-classification engine of the
RecycleRight repository (`src/models/waste_classifier.py`, class
`WasteClassifier`), together with theorems settling the frozen claims.

The cv2/numpy primitives (colour conversion, Sobel, Canny, findContours,
means and standard deviations) are external library calls; their outputs —
the scalar features and the contour list that `get_top_prediction` and
`_detect_metallic_surface` read — are the inputs of the embedded functions.
The decision logic, the confidence arithmetic, the label-loading fallback
and the ranking loop are translated statement by statement from the source.
Randomness (`random.uniform`, `random.choice`, `random.randint`) is made
explicit: a uniform draw `u ∈ [0,1]` models `random.uniform(a,b)` as
`a + u*(b-a)`, a natural number models a `random.choice` index, and streams
`picks`/`factors` model the per-iteration draws of `get_all_predictions`.
-/

namespace RecycleRight

/-- A contour as `get_top_prediction` consumes it: `cv2.contourArea` of the
contour and the `(w, h)` of its `cv2.boundingRect`. -/
structure Contour where
  area : ℚ
  w : ℚ
  h : ℚ
deriving DecidableEq, Repr

/-- The scalar sub-features `_detect_metallic_surface` computes from the
image before combining them: `np.std(gray)/255`, the mean normalized
gradient magnitude, the raw contour density `len(contours)/(H*W)*10000`
before the cap, and the fraction of pixels with `s < 50 and v > 150`. -/
structure MetallicFeatures where
  brightnessStdNorm : ℚ
  textureEnergy : ℚ
  contourDensityRaw : ℚ
  metallicColorFrac : ℚ
deriving DecidableEq, Repr

/-- The image-level quantities `get_top_prediction` computes before the
decision cascade: the HSV channel means, `np.std(gray)`, the external
contours of the Canny edge map, and the sub-features feeding the metallic
detector. -/
structure ImgFeatures where
  avgHue : ℚ
  avgSaturation : ℚ
  avgValue : ℚ
  brightnessStd : ℚ
  contours : List Contour
  metallic : MetallicFeatures
deriving DecidableEq, Repr

/-- `random.uniform(a, b)` modelled by a draw `u ∈ [0,1]`. -/
def uniformDraw (a b u : ℚ) : ℚ := a + u * (b - a)

/-- `WasteClassifier._detect_metallic_surface`, lines 137-180: weighted sum
`0.3*brightness_std/255 + 0.3*texture_energy + 0.2*min(contour_density,1)
+ 0.2*metallic_color_ratio`, scaled by 1.5 and capped at 1.0. -/
def detectMetallicSurface (m : MetallicFeatures) : ℚ :=
  let contourDensity := min m.contourDensityRaw 1
  let score := m.brightnessStdNorm * (3/10) + m.textureEnergy * (3/10) +
      contourDensity * (1/5) + m.metallicColorFrac * (1/5)
  min (score * (3/2)) 1

/-- The `try/except` wrapper of `_detect_metallic_surface`: any internal
error (lines 182-184) yields `0.0`. -/
def detectMetallicSurfaceSafe (r : Except Unit MetallicFeatures) : ℚ :=
  match r with
  | Except.error _ => 0
  | Except.ok m => detectMetallicSurface m

/-- `max(contours, key=cv2.contourArea)` on the nonempty list `c :: cs`:
Python's `max` keeps the first maximum, so a later contour replaces the
current best only when strictly larger. -/
def largestContour (c : Contour) (cs : List Contour) : Contour :=
  cs.foldl (fun best cur => if best.area < cur.area then cur else best) c

/-- The `elif`/`else` chain of the decision cascade after the aluminum-can
branch (lines 243-279).  `aspect` is the largest contour's `h/w` (the
bottle-shape test `1.5 < aspect < 4.0` appears in the first two branches),
`metallicScore` the `_detect_metallic_surface` result.  This chain always
produces a prediction — the final `else` is unconditional. -/
def cascadeRest (f : ImgFeatures) (aspect metallicScore u : ℚ) : String × ℚ :=
  if f.brightnessStd > 40 ∧ f.avgSaturation < 50 ∧
      ((3/2 : ℚ) < aspect ∧ aspect < 4) then
    ("plastic_bottle", 85/100 + uniformDraw (-(1/20)) (1/20) u)
  else if f.brightnessStd > 30 ∧ f.avgSaturation < 40 ∧
      ((3/2 : ℚ) < aspect ∧ aspect < 4) ∧ f.avgValue > 150 then
    ("glass_bottle", 82/100 + uniformDraw (-(1/20)) (1/20) u)
  else if metallicScore > 1/2 then
    ("aluminum_can", 70/100 + uniformDraw (-(1/10)) (1/10) u)
  else if f.avgHue < 30 ∧ f.avgValue < 150 ∧ f.avgSaturation > 20 then
    ("cardboard", 75/100 + uniformDraw (-(1/10)) (1/10) u)
  else if f.avgHue < 60 ∧ f.avgValue > 170 ∧ f.brightnessStd < 50 then
    ("paper", 72/100 + uniformDraw (-(1/10)) (1/10) u)
  else
    ("plastic_container", 70/100 + uniformDraw (-(1/10)) (1/10) u)

/-- The branch of `get_top_prediction` taken when at least one contour was
found (lines 223-279).  `lc` is the largest contour, `u` the uniform draw
feeding the selected branch's confidence jitter.  The `none` result models
the `ZeroDivisionError` raised by `cv2.contourArea(...) / (w * h)` when
`w * h = 0`, which the enclosing `try` turns into `(None, None)`;
`cv2.boundingRect` never actually returns zero dimensions. -/
def cascadeWithContour (f : ImgFeatures) (lc : Contour) (u : ℚ) :
    Option (String × ℚ) :=
  let aspect : ℚ := if 0 < lc.w then lc.h / lc.w else 0
  let metallicScore := detectMetallicSurface f.metallic
  if (aspect < 2 ∨ ((4 : ℚ)/5 < aspect ∧ aspect < 5/2)) ∧
      (metallicScore > 3/5 ∨ (f.avgValue > 160 ∧ f.brightnessStd > 25)) then
    if lc.w * lc.h = 0 then none
    else if lc.area / (lc.w * lc.h) > 13/20 then
      some ("aluminum_can", 88/100 + uniformDraw (-(1/20)) (1/20) u)
    else some (cascadeRest f aspect metallicScore u)
  else some (cascadeRest f aspect metallicScore u)

/-- `WasteClassifier.get_top_prediction` (lines 186-289).  `img` is the
result of `cv2.imread`: `none` when the image cannot be decoded, in which
case the sentinel `(None, None)` — modelled as `none` — is returned.  With
zero contours, `random.choice(self.labels)` is modelled by the index
`cIdx % labels.length` (any index is reachable); on an empty vocabulary
`random.choice` raises and the enclosing `try` returns the sentinel. -/
def getTopPrediction (labels : List String) (img : Option ImgFeatures)
    (u : ℚ) (cIdx : ℕ) : Option (String × ℚ) :=
  match img with
  | none => none
  | some f =>
    match f.contours with
    | [] =>
      match labels with
      | [] => none
      | l :: ls =>
        some ((l :: ls).get ⟨cIdx % (l :: ls).length, Nat.mod_lt _ (Nat.succ_pos _)⟩,
          60/100 + uniformDraw (-(1/10)) (1/10) u)
    | c :: cs => cascadeWithContour f (largestContour c cs) u

/-- The loop of `get_all_predictions` (lines 314-323): `n` more draws while
labels remain; each draw picks `remaining[picks k % len]` (`random.choice`),
removes the first occurrence of that value (`list.remove`), and assigns
confidence `top_confidence * factors k` where `factors k` models
`random.uniform(0.3, 0.8)`. -/
def drawAdditional (tc : ℚ) (picks : ℕ → ℕ) (factors : ℕ → ℚ) :
    ℕ → ℕ → List String → List (String × ℚ)
  | _, 0, _ => []
  | _, _ + 1, [] => []
  | k, n + 1, r :: rs =>
    let lab := (r :: rs).get ⟨picks k % (r :: rs).length, Nat.mod_lt _ (Nat.succ_pos _)⟩
    (lab, tc * factors k) ::
      drawAdditional tc picks factors (k + 1) n ((r :: rs).erase lab)

/-- The comparator of `predictions.sort(key=..., reverse=True)`: earlier
entries have the larger confidence. -/
def confGe (a b : String × ℚ) : Prop := b.2 ≤ a.2

instance : DecidableRel confGe := fun a b => inferInstanceAs (Decidable (b.2 ≤ a.2))

instance : IsTotal (String × ℚ) confGe := ⟨fun a b => le_total b.2 a.2⟩

instance : IsTrans (String × ℚ) confGe := ⟨fun _ _ _ h1 h2 => le_trans h2 h1⟩

/-- `WasteClassifier.get_all_predictions` (lines 291-331).  `nAdd` models
`random.randint(2, 4)`.  Python's `list.sort` is a stable sort, and a stable
sort's output is uniquely determined, so the insertion sort used here agrees
with it on every input.  `if not top_type` treats both `None` and the empty
string as failure. -/
def getAllPredictions (labels : List String) (img : Option ImgFeatures)
    (u : ℚ) (cIdx : ℕ) (nAdd : ℕ) (picks : ℕ → ℕ) (factors : ℕ → ℚ) :
    List (String × ℚ) :=
  match getTopPrediction labels img u cIdx with
  | none => []
  | some (top, tc) =>
    if top = "" then []
    else
      let remaining := labels.filter (fun l => l ≠ top)
      List.insertionSort confGe
        ((top, tc) :: drawAdditional tc picks factors 0 nAdd remaining)

/-- The hard-coded default vocabulary of `_load_labels` (lines 83-87,
repeated at 90-94). -/
def defaultLabels : List String :=
  ["plastic_bottle", "glass_bottle", "aluminum_can", "paper", "cardboard",
   "plastic_bag", "food_waste", "styrofoam", "electronic_waste", "batteries",
   "light_bulb", "clothing", "metal", "plastic_container", "tetra_pak"]

/-- The filesystem as `_load_labels` sees it: existence checks and a
line-reading operation that can fail (any `IOError` while opening/reading). -/
structure FileSystem where
  pathExists : String → Bool
  readLines : String → Except Unit (List String)

/-- `WasteClassifier._load_labels` (lines 38-94): four candidate paths are
tried in order; a read failure on the chosen path propagates to the outer
`except`, which substitutes the default vocabulary, as does exhaustion of
the candidates. -/
def loadLabels (fs : FileSystem) (labelsPath labelsPathAlt baseDir : String) :
    List String :=
  let tryRead (p : String) : List String :=
    match fs.readLines p with
    | Except.ok lines => lines.map (fun l => l.trim)
    | Except.error _ => defaultLabels
  if fs.pathExists labelsPath then tryRead labelsPath
  else if fs.pathExists labelsPathAlt then tryRead labelsPathAlt
  else if fs.pathExists (baseDir ++ "/" ++ labelsPath) then
    tryRead (baseDir ++ "/" ++ labelsPath)
  else if fs.pathExists (baseDir ++ "/" ++ labelsPathAlt) then
    tryRead (baseDir ++ "/" ++ labelsPathAlt)
  else defaultLabels

/-- The deterministic quantities one run of `get_top_prediction` derives
from the image: the four scalar features (lines 207-213), and — when a
contour exists — the metallic score and the largest-contour aspect ratio
(lines 224-232). -/
structure RunTrace where
  avgHue : ℚ
  avgSaturation : ℚ
  avgValue : ℚ
  brightnessStd : ℚ
  metallicScore : Option ℚ
  aspect : Option ℚ
deriving DecidableEq, Repr

/-- The trace of one run of `get_top_prediction` on decoded image `f`, as a
function of the same random draws the run consumes. -/
def runTrace (f : ImgFeatures) (_u : ℚ) (_cIdx : ℕ) : RunTrace :=
  match f.contours with
  | [] => ⟨f.avgHue, f.avgSaturation, f.avgValue, f.brightnessStd, none, none⟩
  | c :: cs =>
    let lc := largestContour c cs
    ⟨f.avgHue, f.avgSaturation, f.avgValue, f.brightnessStd,
      some (detectMetallicSurface f.metallic),
      some (if 0 < lc.w then lc.h / lc.w else 0)⟩

/-! ### Helper lemmas -/

/-- A jittered confidence `base + uniform(-j, j)` stays within `base ± j`. -/
lemma jitter_mem (base j u : ℚ) (hu0 : 0 ≤ u) (hu1 : u ≤ 1) (hj : 0 ≤ j) :
    base - j ≤ base + uniformDraw (-j) j u ∧ base + uniformDraw (-j) j u ≤ base + j := by
  unfold uniformDraw
  constructor <;> nlinarith

/-- The confidence produced by the `elif`/`else` chain lies in
`[3/5, 9/10]`. -/
lemma cascadeRest_conf (f : ImgFeatures) (a ms u : ℚ)
    (hu0 : 0 ≤ u) (hu1 : u ≤ 1) :
    3/5 ≤ (cascadeRest f a ms u).2 ∧ (cascadeRest f a ms u).2 ≤ 9/10 := by
  unfold cascadeRest uniformDraw
  split_ifs <;> constructor <;> nlinarith

/-- The label produced by the `elif`/`else` chain is one of five fixed
strings. -/
lemma cascadeRest_label (f : ImgFeatures) (a ms u : ℚ) :
    (cascadeRest f a ms u).1 ∈
      ["plastic_bottle", "glass_bottle", "aluminum_can", "cardboard",
       "paper", "plastic_container"] := by
  unfold cascadeRest
  split_ifs <;> simp

/-- The label produced by the `elif`/`else` chain does not depend on the
uniform draw. -/
lemma cascadeRest_label_indep (f : ImgFeatures) (a ms u₁ u₂ : ℚ) :
    (cascadeRest f a ms u₁).1 = (cascadeRest f a ms u₂).1 := by
  unfold cascadeRest
  split_ifs <;> rfl

/-- Every confidence `get_top_prediction` can return lies in `[1/2, 93/100]`. -/
lemma getTop_conf_bounds (labels : List String) (img : Option ImgFeatures)
    (u : ℚ) (cIdx : ℕ) (top : String) (tc : ℚ)
    (hu0 : 0 ≤ u) (hu1 : u ≤ 1)
    (h : getTopPrediction labels img u cIdx = some (top, tc)) :
    1/2 ≤ tc ∧ tc ≤ 93/100 := by
  cases img with
  | none => simp [getTopPrediction] at h
  | some f =>
    rcases hc : f.contours with - | ⟨c, cs⟩
    · cases labels with
      | nil => simp [getTopPrediction, hc] at h
      | cons l ls =>
        simp only [getTopPrediction, hc] at h
        simp only [Option.some.injEq, Prod.mk.injEq] at h
        obtain ⟨-, htc⟩ := h
        subst htc
        unfold uniformDraw
        constructor <;> nlinarith
    · simp only [getTopPrediction, hc] at h
      simp only [cascadeWithContour] at h
      set a := (if 0 < (largestContour c cs).w
        then (largestContour c cs).h / (largestContour c cs).w else 0) with ha
      split_ifs at h with h1 h2 h3
      · simp only [Option.some.injEq, Prod.mk.injEq] at h
        obtain ⟨-, htc⟩ := h
        subst htc
        unfold uniformDraw
        constructor <;> nlinarith
      · simp only [Option.some.injEq] at h
        have hb := cascadeRest_conf f a (detectMetallicSurface f.metallic) u hu0 hu1
        rw [h] at hb
        have hb1 : 3/5 ≤ tc := by simpa using hb.1
        have hb2 : tc ≤ 9/10 := by simpa using hb.2
        exact ⟨by linarith, by linarith⟩
      · simp only [Option.some.injEq] at h
        have hb := cascadeRest_conf f a (detectMetallicSurface f.metallic) u hu0 hu1
        rw [h] at hb
        have hb1 : 3/5 ≤ tc := by simpa using hb.1
        have hb2 : tc ≤ 9/10 := by simpa using hb.2
        exact ⟨by linarith, by linarith⟩

/-- The additional-prediction loop yields `min n rem.length` entries: one
label is consumed per iteration until the count or the pool is exhausted. -/
lemma drawAdditional_length (tc : ℚ) (picks : ℕ → ℕ) (factors : ℕ → ℚ) :
    ∀ (n k : ℕ) (rem : List String),
      (drawAdditional tc picks factors k n rem).length = min n rem.length := by
  intro n
  induction n with
  | zero => intro k rem; simp [drawAdditional]
  | succ n ih =>
    intro k rem
    cases rem with
    | nil => simp [drawAdditional]
    | cons r rs =>
      have hmem : (r :: rs).get ⟨picks k % (rs.length + 1),
          Nat.mod_lt _ (Nat.succ_pos _)⟩ ∈ r :: rs := List.get_mem _ _ _
      simp only [drawAdditional, List.length_cons, ih]
      rw [List.length_erase_of_mem hmem]
      simp only [List.length_cons]
      omega

/-- Every additional prediction's label is drawn from the pool and its
confidence equals `tc` times one of the stream factors. -/
lemma drawAdditional_mem (tc : ℚ) (picks : ℕ → ℕ) (factors : ℕ → ℚ) :
    ∀ (n k : ℕ) (rem : List String) (p : String × ℚ),
      p ∈ drawAdditional tc picks factors k n rem →
      p.1 ∈ rem ∧ ∃ j, p.2 = tc * factors j := by
  intro n
  induction n with
  | zero => intro k rem p hp; simp [drawAdditional] at hp
  | succ n ih =>
    intro k rem p hp
    cases rem with
    | nil => simp [drawAdditional] at hp
    | cons r rs =>
      simp only [drawAdditional, List.mem_cons] at hp
      rcases hp with rfl | hp
      · exact ⟨List.get_mem _ _ _, k, rfl⟩
      · obtain ⟨h1, h2⟩ := ih (k + 1) _ p hp
        exact ⟨List.erase_subset _ _ h1, h2⟩

/-- Drawing without replacement from a duplicate-free pool yields pairwise
distinct labels. -/
lemma drawAdditional_nodup (tc : ℚ) (picks : ℕ → ℕ) (factors : ℕ → ℚ) :
    ∀ (n k : ℕ) (rem : List String), rem.Nodup →
      ((drawAdditional tc picks factors k n rem).map Prod.fst).Nodup := by
  intro n
  induction n with
  | zero => intro k rem _; simp [drawAdditional]
  | succ n ih =>
    intro k rem hnd
    cases rem with
    | nil => simp [drawAdditional]
    | cons r rs =>
      simp only [drawAdditional, List.map_cons, List.nodup_cons]
      constructor
      · intro hmem
        obtain ⟨p, hp, hfst⟩ := List.mem_map.mp hmem
        have h1 := (drawAdditional_mem tc picks factors n (k + 1) _ p hp).1
        rw [hfst] at h1
        have hni := List.Nodup.mem_erase_iff hnd |>.mp h1
        exact hni.1 rfl
      · exact ih (k + 1) _ (List.Nodup.erase _ hnd)

/-- A stable descending sort of a list headed by a strictly maximal entry
keeps that entry first. -/
lemma insertionSort_head_of_strict_max (top : String × ℚ) (adds : List (String × ℚ))
    (hlt : ∀ p ∈ adds, p.2 < top.2) :
    (List.insertionSort confGe (top :: adds)).head? = some top := by
  have hperm : List.Perm (List.insertionSort confGe (top :: adds)) (top :: adds) :=
    List.perm_insertionSort _ _
  have hsorted : List.Sorted confGe (List.insertionSort confGe (top :: adds)) :=
    List.sorted_insertionSort _ _
  have hne : List.insertionSort confGe (top :: adds) ≠ [] := by
    intro h
    have := hperm.length_eq
    rw [h] at this
    simp at this
  obtain ⟨hd, tl, hout⟩ := List.exists_cons_of_ne_nil hne
  rw [hout, List.head?_cons]
  have htopmem : top ∈ List.insertionSort confGe (top :: adds) :=
    hperm.mem_iff.mpr (List.mem_cons_self _ _)
  rw [hout] at htopmem hsorted
  rcases List.mem_cons.mp htopmem with heq | htl
  · rw [heq]
  · have h1 : confGe hd top := (List.sorted_cons.mp hsorted).1 top htl
    have h2 : hd ∈ top :: adds := hperm.mem_iff.mp (hout ▸ List.mem_cons_self hd tl)
    rcases List.mem_cons.mp h2 with heq | h2
    · rw [heq]
    · exact absurd h1 (not_le.mpr (hlt hd h2))

/-- Filtering out one value from a duplicate-free list removes at most one
element. -/
lemma length_filter_ne (labels : List String) (top : String) (hnd : labels.Nodup) :
    labels.length - 1 ≤ (labels.filter (fun l => l ≠ top)).length := by
  induction labels with
  | nil => simp
  | cons a as ih =>
    have hna := (List.nodup_cons.mp hnd).1
    have hnd' := (List.nodup_cons.mp hnd).2
    by_cases ha : a = top
    · subst ha
      have hfil : as.filter (fun l => l ≠ a) = as :=
        List.filter_eq_self.mpr fun b hb =>
          decide_eq_true fun h => hna (h ▸ hb)
      simp only [List.filter_cons]
      rw [if_neg (by simp), hfil]
      simp
    · simp only [List.filter_cons]
      rw [if_pos (decide_eq_true ha)]
      simp only [List.length_cons]
      have := ih hnd'
      omega

/-! ### Claims -/

/-- C6: if the input image cannot be read/decoded (`cv2.imread` returns
`None`), `get_top_prediction` returns the sentinel `(None, None)` and
`get_all_predictions` returns the empty list; neither raises. -/
theorem C6_decode_failure_sentinels (labels : List String) (u : ℚ)
    (cIdx nAdd : ℕ) (picks : ℕ → ℕ) (factors : ℕ → ℚ) :
    getTopPrediction labels none u cIdx = none ∧
    getAllPredictions labels none u cIdx nAdd picks factors = [] :=
  ⟨rfl, rfl⟩

/-- C7: when no labels file exists at any of the four candidate paths (or
reading the chosen one fails), `_load_labels` silently substitutes the fixed
built-in default vocabulary of exactly 15 labels, the first being
`plastic_bottle` and the last `tetra_pak`. -/
theorem C7_default_labels (fs : FileSystem) (lp lpa bd : String)
    (h : ∀ p ∈ [lp, lpa, bd ++ "/" ++ lp, bd ++ "/" ++ lpa],
      fs.pathExists p = false ∨ fs.readLines p = Except.error ()) :
    loadLabels fs lp lpa bd = defaultLabels ∧
    defaultLabels.length = 15 ∧
    defaultLabels.head? = some "plastic_bottle" ∧
    defaultLabels.getLast? = some "tetra_pak" := by
  refine ⟨?_, rfl, rfl, rfl⟩
  have h1 := h lp (by simp)
  have h2 := h lpa (by simp)
  have h3 := h (bd ++ "/" ++ lp) (by simp)
  have h4 := h (bd ++ "/" ++ lpa) (by simp)
  unfold loadLabels
  by_cases hp1 : fs.pathExists lp = true
  · rcases h1 with h1 | h1
    · rw [hp1] at h1; cases h1
    · simp [hp1, h1]
  · rw [if_neg hp1]
    by_cases hp2 : fs.pathExists lpa = true
    · rcases h2 with h2 | h2
      · rw [hp2] at h2; cases h2
      · simp [hp2, h2]
    · rw [if_neg hp2]
      by_cases hp3 : fs.pathExists (bd ++ "/" ++ lp) = true
      · rcases h3 with h3 | h3
        · rw [hp3] at h3; cases h3
        · simp [hp3, h3]
      · rw [if_neg hp3]
        by_cases hp4 : fs.pathExists (bd ++ "/" ++ lpa) = true
        · rcases h4 with h4 | h4
          · rw [hp4] at h4; cases h4
          · simp [hp4, h4]
        · rw [if_neg hp4]

/-- Witness for C7 at a filesystem with no readable files. -/
theorem C7_default_labels_witness :
    loadLabels ⟨fun _ => false, fun _ => Except.error ()⟩ "labels.txt"
      "models/labels/waste_labels.txt" "/app" = defaultLabels ∧
    defaultLabels.length = 15 ∧
    defaultLabels.head? = some "plastic_bottle" ∧
    defaultLabels.getLast? = some "tetra_pak" :=
  C7_default_labels ⟨fun _ => false, fun _ => Except.error ()⟩ "labels.txt"
    "models/labels/waste_labels.txt" "/app" (fun _ _ => Or.inl rfl)

/-- C8: the metallic score and the scalar features a run of
`get_top_prediction` derives from a fixed decoded image do not depend on the
random draws the run consumes (no randomness flows into them), and with at
least one contour the selected label is likewise identical across runs. -/
theorem C8_deterministic_features (f : ImgFeatures) (labels : List String)
    (u₁ u₂ : ℚ) (c₁ c₂ : ℕ) :
    runTrace f u₁ c₁ = runTrace f u₂ c₂ ∧
    (f.contours ≠ [] →
      (getTopPrediction labels (some f) u₁ c₁).map Prod.fst =
      (getTopPrediction labels (some f) u₂ c₂).map Prod.fst) := by
  refine ⟨rfl, fun hne => ?_⟩
  rcases hc : f.contours with - | ⟨c, cs⟩
  · exact absurd hc hne
  · simp only [getTopPrediction, hc]
    simp only [cascadeWithContour]
    split_ifs <;>
      first
      | rfl
      | exact congrArg some (cascadeRest_label_indep f _ (detectMetallicSurface f.metallic) u₁ u₂)

/-- Witness for C8 at a concrete single-contour image and two distinct
random draws. -/
theorem C8_deterministic_features_witness :
    runTrace ⟨0, 10, 100, 10, [⟨2, 1, 2⟩], ⟨0, 0, 0, 0⟩⟩ 0 0 =
      runTrace ⟨0, 10, 100, 10, [⟨2, 1, 2⟩], ⟨0, 0, 0, 0⟩⟩ 1 7 ∧
    (getTopPrediction ["a"] (some ⟨0, 10, 100, 10, [⟨2, 1, 2⟩], ⟨0, 0, 0, 0⟩⟩) 0 0).map Prod.fst =
      (getTopPrediction ["a"] (some ⟨0, 10, 100, 10, [⟨2, 1, 2⟩], ⟨0, 0, 0, 0⟩⟩) 1 7).map Prod.fst :=
  ⟨(C8_deterministic_features ⟨0, 10, 100, 10, [⟨2, 1, 2⟩], ⟨0, 0, 0, 0⟩⟩ ["a"] 0 1 0 7).1,
   (C8_deterministic_features ⟨0, 10, 100, 10, [⟨2, 1, 2⟩], ⟨0, 0, 0, 0⟩⟩ ["a"] 0 1 0 7).2
     (by simp)⟩

/-- C4: `_detect_metallic_surface` computes the weighted sum
`0.3·(brightness_std/255) + 0.3·texture_energy + 0.2·min(contour_density,1)
+ 0.2·metallic_color_ratio`, scales it by 1.5, caps at 1.0, stays within
`[0,1]` for in-range sub-features, and yields `0.0` on any internal error. -/
theorem C4_metallic_score_range (m : MetallicFeatures)
    (hb : 0 ≤ m.brightnessStdNorm ∧ m.brightnessStdNorm ≤ 1)
    (ht : 0 ≤ m.textureEnergy ∧ m.textureEnergy ≤ 1)
    (hc : 0 ≤ m.contourDensityRaw)
    (hr : 0 ≤ m.metallicColorFrac ∧ m.metallicColorFrac ≤ 1) :
    detectMetallicSurface m =
      min ((m.brightnessStdNorm * (3/10) + m.textureEnergy * (3/10) +
        min m.contourDensityRaw 1 * (1/5) + m.metallicColorFrac * (1/5)) * (3/2)) 1 ∧
    0 ≤ detectMetallicSurface m ∧ detectMetallicSurface m ≤ 1 ∧
    detectMetallicSurfaceSafe (Except.error ()) = 0 ∧
    detectMetallicSurfaceSafe (Except.ok m) = detectMetallicSurface m := by
  refine ⟨rfl, ?_, ?_, rfl, rfl⟩
  · unfold detectMetallicSurface
    have hcd : (0 : ℚ) ≤ min m.contourDensityRaw 1 := le_min hc (by norm_num)
    refine le_min ?_ (by norm_num)
    nlinarith [hb.1, ht.1, hr.1]
  · exact min_le_right _ _

/-- Witness for C4 at concrete in-range sub-features. -/
theorem C4_metallic_score_range_witness :
    detectMetallicSurface ⟨1/5, 1/4, 3, 1/2⟩ =
      min (((1/5 : ℚ) * (3/10) + (1/4) * (3/10) +
        min (3 : ℚ) 1 * (1/5) + (1/2) * (1/5)) * (3/2)) 1 ∧
    0 ≤ detectMetallicSurface ⟨1/5, 1/4, 3, 1/2⟩ ∧
    detectMetallicSurface ⟨1/5, 1/4, 3, 1/2⟩ ≤ 1 ∧
    detectMetallicSurfaceSafe (Except.error ()) = 0 ∧
    detectMetallicSurfaceSafe (Except.ok ⟨1/5, 1/4, 3, 1/2⟩) =
      detectMetallicSurface ⟨1/5, 1/4, 3, 1/2⟩ :=
  C4_metallic_score_range ⟨1/5, 1/4, 3, 1/2⟩
    ⟨by norm_num, by norm_num⟩ ⟨by norm_num, by norm_num⟩ (by norm_num)
    ⟨by norm_num, by norm_num⟩

/-- C5: with zero contours from edge detection, classification does not
fail: it returns a vocabulary label (every label being reachable by some
draw of `random.choice`) with confidence in `[0.50, 0.70]`. -/
theorem C5_zero_contours_fallback (f : ImgFeatures) (labels : List String)
    (u : ℚ) (cIdx : ℕ) (hc : f.contours = []) (hl : labels ≠ [])
    (hu0 : 0 ≤ u) (hu1 : u ≤ 1) :
    (∃ lab conf, getTopPrediction labels (some f) u cIdx = some (lab, conf) ∧
      lab ∈ labels ∧ 1/2 ≤ conf ∧ conf ≤ 7/10) ∧
    (∀ lab ∈ labels, ∃ i,
      (getTopPrediction labels (some f) u i).map Prod.fst = some lab) := by
  obtain ⟨l, ls, rfl⟩ := List.exists_cons_of_ne_nil hl
  constructor
  · refine ⟨(l :: ls).get ⟨cIdx % (l :: ls).length, Nat.mod_lt _ (Nat.succ_pos _)⟩,
      60/100 + uniformDraw (-(1/10)) (1/10) u, ?_, List.get_mem _ _ _, ?_, ?_⟩
    · simp [getTopPrediction, hc]
    · unfold uniformDraw; nlinarith
    · unfold uniformDraw; nlinarith
  · intro lab hlab
    obtain ⟨⟨i, hi⟩, hget⟩ := List.mem_iff_get.mp hlab
    refine ⟨i, ?_⟩
    simp only [getTopPrediction, hc, Option.map_some]
    have hfin : (⟨i % (l :: ls).length, Nat.mod_lt _ (Nat.succ_pos _)⟩ :
        Fin (l :: ls).length) = ⟨i, hi⟩ := Fin.ext (Nat.mod_eq_of_lt hi)
    rw [hfin, hget]
    rfl

/-- Witness for C5 at a concrete contour-free image and two-label
vocabulary. -/
theorem C5_zero_contours_fallback_witness :
    (∃ lab conf,
      getTopPrediction ["paper", "metal"] (some ⟨0, 0, 0, 0, [], ⟨0, 0, 0, 0⟩⟩) (1/2) 3 =
        some (lab, conf) ∧
      lab ∈ ["paper", "metal"] ∧ 1/2 ≤ conf ∧ conf ≤ 7/10) ∧
    (∀ lab ∈ ["paper", "metal"], ∃ i,
      (getTopPrediction ["paper", "metal"] (some ⟨0, 0, 0, 0, [], ⟨0, 0, 0, 0⟩⟩) (1/2) i).map
        Prod.fst = some lab) :=
  C5_zero_contours_fallback ⟨0, 0, 0, 0, [], ⟨0, 0, 0, 0⟩⟩ ["paper", "metal"] (1/2) 3
    rfl (by simp) (by norm_num) (by norm_num)

/-- Concrete evaluation shared by several witnesses: a dull, low-saturation
single-contour image falls through every guarded branch to the
`plastic_container` default, for any vocabulary. -/
lemma evalPlasticContainer (labels : List String) :
    getTopPrediction labels
      (some ⟨0, 10, 100, 10, [⟨2, 1, 2⟩], ⟨0, 0, 0, 0⟩⟩) (1/2) 0 =
      some ("plastic_container", 7/10) := by
  norm_num [getTopPrediction, cascadeWithContour, cascadeRest,
    detectMetallicSurface, largestContour, uniformDraw, min_def]

/-- C1 counterexample: with brightness_std 50 > 40, saturation 10 < 50 and
aspect ratio exactly 2, high `avg_value` (200 > 160) together with fill
ratio 1 > 0.65 makes branch 1 fire first — the cascade returns
`aluminum_can`, not `plastic_bottle`, so the selection is not independent
of `avg_value` and the fill ratio. -/
theorem C1_counterexample :
    ((⟨0, 10, 200, 50, [⟨2, 1, 2⟩], ⟨10/51, 0, 0, 0⟩⟩ : ImgFeatures).brightnessStd > 40) ∧
    ((⟨0, 10, 200, 50, [⟨2, 1, 2⟩], ⟨10/51, 0, 0, 0⟩⟩ : ImgFeatures).avgSaturation < 50) ∧
    (largestContour ⟨2, 1, 2⟩ []).h / (largestContour ⟨2, 1, 2⟩ []).w = 2 ∧
    (getTopPrediction defaultLabels
      (some ⟨0, 10, 200, 50, [⟨2, 1, 2⟩], ⟨10/51, 0, 0, 0⟩⟩) (1/2) 0).map Prod.fst =
      some "aluminum_can" :=
  ⟨by norm_num, by norm_num, by norm_num [largestContour],
   by norm_num [getTopPrediction, cascadeWithContour, cascadeRest,
     detectMetallicSurface, largestContour, uniformDraw, min_def]⟩

/-- C1 (amended): for a feature vector with brightness_std > 40,
avg_saturation < 50 and largest-contour aspect ratio exactly 2.0, provided
the aluminum-can branch does not match — i.e. its metallic condition fails
(metallic_score ≤ 0.6 and avg_value ≤ 160) or its fill-ratio condition
fails (fill ≤ 0.65) — the cascade selects `plastic_bottle` (branch 2) with
confidence in [0.80, 0.90]. -/
theorem C1_plastic_bottle_branch (labels : List String) (f : ImgFeatures)
    (c : Contour) (cs : List Contour) (u : ℚ) (cIdx : ℕ)
    (hc : f.contours = c :: cs)
    (hw : 0 < (largestContour c cs).w)
    (ha : (largestContour c cs).h = 2 * (largestContour c cs).w)
    (hb : f.brightnessStd > 40) (hs : f.avgSaturation < 50)
    (hu0 : 0 ≤ u) (hu1 : u ≤ 1)
    (hnoAl : (detectMetallicSurface f.metallic ≤ 3/5 ∧ f.avgValue ≤ 160) ∨
      (largestContour c cs).area /
        ((largestContour c cs).w * (largestContour c cs).h) ≤ 13/20) :
    ∃ conf, getTopPrediction labels (some f) u cIdx = some ("plastic_bottle", conf) ∧
      4/5 ≤ conf ∧ conf ≤ 9/10 := by
  have haspect : (if 0 < (largestContour c cs).w
      then (largestContour c cs).h / (largestContour c cs).w else 0) = 2 := by
    rw [if_pos hw, ha, mul_div_assoc, div_self (ne_of_gt hw), mul_one]
  have hrest : cascadeRest f 2 (detectMetallicSurface f.metallic) u =
      ("plastic_bottle", 85/100 + uniformDraw (-(1/20)) (1/20) u) := by
    unfold cascadeRest
    rw [if_pos ⟨hb, hs, by norm_num, by norm_num⟩]
  refine ⟨85/100 + uniformDraw (-(1/20)) (1/20) u, ?_,
    by unfold uniformDraw; nlinarith, by unfold uniformDraw; nlinarith⟩
  simp only [getTopPrediction, hc]
  simp only [cascadeWithContour]
  rw [haspect]
  rcases hnoAl with ⟨hms, hv⟩ | hfill
  · rw [if_neg (by
      rintro ⟨-, hm | ⟨hv160, -⟩⟩
      · exact absurd hm (not_lt.mpr hms)
      · exact absurd hv160 (not_lt.mpr hv))]
    rw [hrest]
  · by_cases hcond : ((2 : ℚ) < 2 ∨ (4 : ℚ)/5 < 2 ∧ (2 : ℚ) < 5/2) ∧
        (detectMetallicSurface f.metallic > 3/5 ∨
          f.avgValue > 160 ∧ f.brightnessStd > 25)
    · rw [if_pos hcond]
      have hwh : ¬((largestContour c cs).w * (largestContour c cs).h = 0) := by
        have : 0 < (largestContour c cs).w * (largestContour c cs).h := by
          rw [ha]; positivity
        exact ne_of_gt this
      rw [if_neg hwh, if_neg (not_lt.mpr hfill), hrest]
    · rw [if_neg hcond, hrest]

/-- Witness for the amended C1 at a concrete low-value, low-fill image. -/
theorem C1_plastic_bottle_branch_witness :
    ∃ conf, getTopPrediction defaultLabels
      (some ⟨0, 10, 100, 50, [⟨1, 1, 2⟩], ⟨0, 0, 0, 0⟩⟩) (1/2) 0 =
      some ("plastic_bottle", conf) ∧ 4/5 ≤ conf ∧ conf ≤ 9/10 :=
  C1_plastic_bottle_branch defaultLabels ⟨0, 10, 100, 50, [⟨1, 1, 2⟩], ⟨0, 0, 0, 0⟩⟩
    ⟨1, 1, 2⟩ [] (1/2) 0 rfl (by norm_num [largestContour])
    (by norm_num [largestContour]) (by norm_num) (by norm_num)
    (by norm_num) (by norm_num)
    (Or.inl ⟨by norm_num [detectMetallicSurface, min_def], by norm_num⟩)

/-- C2 counterexample: the cascade labels are hard-coded, so with a
vocabulary not containing `plastic_container` the returned label is not a
member of the loaded vocabulary. -/
theorem C2_counterexample :
    getTopPrediction ["recyclable_item"]
      (some ⟨0, 10, 100, 10, [⟨2, 1, 2⟩], ⟨0, 0, 0, 0⟩⟩) (1/2) 0 =
      some ("plastic_container", 7/10) ∧
    "plastic_container" ∉ ["recyclable_item"] :=
  ⟨evalPlasticContainer ["recyclable_item"], by simp⟩

/-- C2 (amended): for every successfully classified image the returned
confidence lies in [0,1] — regardless of the vocabulary; and whenever the
vocabulary contains the six hard-coded cascade labels (as the default
vocabulary does), the returned label is a member of the vocabulary. -/
theorem C2_conf_in_unit_and_label_in_vocab (labels : List String)
    (f : ImgFeatures) (u : ℚ) (cIdx : ℕ) (lab : String) (conf : ℚ)
    (hu0 : 0 ≤ u) (hu1 : u ≤ 1)
    (hres : getTopPrediction labels (some f) u cIdx = some (lab, conf)) :
    0 ≤ conf ∧ conf ≤ 1 ∧
    ((∀ s ∈ ["plastic_bottle", "glass_bottle", "aluminum_can",
      "cardboard", "paper", "plastic_container"], s ∈ labels) → lab ∈ labels) := by
  have hconf := getTop_conf_bounds labels (some f) u cIdx lab conf hu0 hu1 hres
  refine ⟨by linarith [hconf.1], by linarith [hconf.2], ?_⟩
  intro hvocab
  rcases hc : f.contours with - | ⟨c, cs⟩
  · cases labels with
    | nil => simp [getTopPrediction, hc] at hres
    | cons l ls =>
      simp only [getTopPrediction, hc, Option.some.injEq, Prod.mk.injEq] at hres
      obtain ⟨hlab, -⟩ := hres
      exact hlab ▸ List.get_mem _ _ _
  · simp only [getTopPrediction, hc] at hres
    simp only [cascadeWithContour] at hres
    set a := (if 0 < (largestContour c cs).w
      then (largestContour c cs).h / (largestContour c cs).w else 0) with haeq
    split_ifs at hres with h1 h2 h3
    · simp only [Option.some.injEq, Prod.mk.injEq] at hres
      obtain ⟨hlab, -⟩ := hres
      exact hlab ▸ hvocab "aluminum_can" (by simp)
    · simp only [Option.some.injEq] at hres
      have hl := cascadeRest_label f a (detectMetallicSurface f.metallic) u
      rw [hres] at hl
      have hl' : lab ∈ ["plastic_bottle", "glass_bottle", "aluminum_can",
          "cardboard", "paper", "plastic_container"] := by simpa using hl
      exact hvocab lab hl'
    · simp only [Option.some.injEq] at hres
      have hl := cascadeRest_label f a (detectMetallicSurface f.metallic) u
      rw [hres] at hl
      have hl' : lab ∈ ["plastic_bottle", "glass_bottle", "aluminum_can",
          "cardboard", "paper", "plastic_container"] := by simpa using hl
      exact hvocab lab hl'

/-- Witness for the amended C2 at the default vocabulary. -/
theorem C2_conf_in_unit_and_label_in_vocab_witness :
    (0 : ℚ) ≤ 7/10 ∧ (7/10 : ℚ) ≤ 1 ∧
    ((∀ s ∈ ["plastic_bottle", "glass_bottle", "aluminum_can",
      "cardboard", "paper", "plastic_container"], s ∈ defaultLabels) →
      "plastic_container" ∈ defaultLabels) :=
  C2_conf_in_unit_and_label_in_vocab defaultLabels
    ⟨0, 10, 100, 10, [⟨2, 1, 2⟩], ⟨0, 0, 0, 0⟩⟩ (1/2) 0 "plastic_container" (7/10)
    (by norm_num) (by norm_num)
    (evalPlasticContainer defaultLabels)

/-- C9: whenever edge detection finds at least one contour, the label
`get_top_prediction` returns is one of the six hard-coded strings, and the
whole result is independent of the loaded vocabulary. -/
theorem C9_hardcoded_labels (f : ImgFeatures) (c : Contour) (cs : List Contour)
    (hc : f.contours = c :: cs) :
    (∀ labels u cIdx lab conf,
      getTopPrediction labels (some f) u cIdx = some (lab, conf) →
      lab ∈ ["plastic_bottle", "glass_bottle", "aluminum_can", "cardboard",
        "paper", "plastic_container"]) ∧
    (∀ labels₁ labels₂ u cIdx,
      getTopPrediction labels₁ (some f) u cIdx =
      getTopPrediction labels₂ (some f) u cIdx) := by
  constructor
  · intro labels u cIdx lab conf h
    simp only [getTopPrediction, hc] at h
    simp only [cascadeWithContour] at h
    set a := (if 0 < (largestContour c cs).w
      then (largestContour c cs).h / (largestContour c cs).w else 0) with haeq
    split_ifs at h with h1 h2 h3
    · simp only [Option.some.injEq, Prod.mk.injEq] at h
      obtain ⟨hlab, -⟩ := h
      exact hlab ▸ (by simp)
    · simp only [Option.some.injEq] at h
      have hl := cascadeRest_label f a (detectMetallicSurface f.metallic) u
      rw [h] at hl
      simpa using hl
    · simp only [Option.some.injEq] at h
      have hl := cascadeRest_label f a (detectMetallicSurface f.metallic) u
      rw [h] at hl
      simpa using hl
  · intro labels₁ labels₂ u cIdx
    simp only [getTopPrediction, hc]

/-- Witness for C9 at a concrete single-contour image and two different
vocabularies. -/
theorem C9_hardcoded_labels_witness :
    "plastic_container" ∈ ["plastic_bottle", "glass_bottle", "aluminum_can",
      "cardboard", "paper", "plastic_container"] ∧
    getTopPrediction ["a"] (some ⟨0, 10, 100, 10, [⟨2, 1, 2⟩], ⟨0, 0, 0, 0⟩⟩) (1/2) 0 =
      getTopPrediction ["b", "c"]
        (some ⟨0, 10, 100, 10, [⟨2, 1, 2⟩], ⟨0, 0, 0, 0⟩⟩) (1/2) 0 :=
  ⟨(C9_hardcoded_labels ⟨0, 10, 100, 10, [⟨2, 1, 2⟩], ⟨0, 0, 0, 0⟩⟩ ⟨2, 1, 2⟩ [] rfl).1
      ["a"] (1/2) 0 "plastic_container" (7/10) (evalPlasticContainer ["a"]),
   (C9_hardcoded_labels ⟨0, 10, 100, 10, [⟨2, 1, 2⟩], ⟨0, 0, 0, 0⟩⟩ ⟨2, 1, 2⟩ [] rfl).2
      ["a"] ["b", "c"] (1/2) 0⟩

/-- C3: whenever the top prediction succeeds (with a non-empty-string
label, a duplicate-free vocabulary of at least 5 labels, and the documented
ranges of `random.randint(2,4)` and `random.uniform(0.3,0.8)`),
`get_all_predictions` returns 3 to 5 entries sorted non-increasingly by
confidence, headed by the top prediction, the remaining labels being
pairwise distinct, distinct from the top label, and drawn from the
vocabulary. -/
theorem C3_prediction_set (labels : List String) (img : Option ImgFeatures)
    (u : ℚ) (cIdx nAdd : ℕ) (picks : ℕ → ℕ) (factors : ℕ → ℚ)
    (top : String) (tc : ℚ) (out : List (String × ℚ))
    (hu0 : 0 ≤ u) (hu1 : u ≤ 1)
    (hTop : getTopPrediction labels img u cIdx = some (top, tc))
    (hne : top ≠ "")
    (hnd : labels.Nodup) (hlen : 5 ≤ labels.length)
    (hn2 : 2 ≤ nAdd) (hn4 : nAdd ≤ 4)
    (hfac : ∀ k, 3/10 ≤ factors k ∧ factors k ≤ 4/5)
    (hout : out = getAllPredictions labels img u cIdx nAdd picks factors) :
    (3 ≤ out.length ∧ out.length ≤ 5) ∧
    List.Sorted confGe out ∧
    out.head? = some (top, tc) ∧
    (out.tail.map Prod.fst).Nodup ∧
    ∀ p ∈ out.tail, p.1 ≠ top ∧ p.1 ∈ labels := by
  set rem := labels.filter (fun l => l ≠ top) with hrem
  set adds := drawAdditional tc picks factors 0 nAdd rem with hadds
  have hout' : out = List.insertionSort confGe ((top, tc) :: adds) := by
    rw [hout]
    simp only [getAllPredictions, hTop]
    rw [if_neg hne]
  have htc : 0 < tc :=
    lt_of_lt_of_le (by norm_num)
      (getTop_conf_bounds labels img u cIdx top tc hu0 hu1 hTop).1
  have hlt : ∀ p ∈ adds, p.2 < tc := by
    intro p hp
    obtain ⟨-, j, hj⟩ := drawAdditional_mem tc picks factors nAdd 0 rem p hp
    have h1 := (hfac j).1
    have h2 := (hfac j).2
    nlinarith [hj]
  have hperm : List.Perm out ((top, tc) :: adds) := by
    rw [hout']
    exact List.perm_insertionSort _ _
  have hhead : out.head? = some (top, tc) := by
    rw [hout']
    exact insertionSort_head_of_strict_max _ _ hlt
  have hsorted : List.Sorted confGe out := by
    rw [hout']
    exact List.sorted_insertionSort _ _
  have hremlen : 4 ≤ rem.length := by
    have := length_filter_ne labels top hnd
    rw [← hrem] at this
    omega
  have haddlen : adds.length = nAdd := by
    rw [hadds, drawAdditional_length]
    exact Nat.min_eq_left (le_trans hn4 hremlen)
  have hlen_out : out.length = nAdd + 1 := by
    have hl := hperm.length_eq
    simp only [List.length_cons, haddlen] at hl
    omega
  obtain ⟨hd, tl, houtc⟩ : ∃ hd tl, out = hd :: tl := by
    cases out with
    | nil => simp at hlen_out
    | cons a b => exact ⟨a, b, rfl⟩
  have hhd : hd = (top, tc) := by
    rw [houtc] at hhead
    simpa using hhead
  subst hhd
  have htl : List.Perm tl adds := by
    have hp2 := hperm
    rw [houtc] at hp2
    exact hp2.cons_inv
  refine ⟨⟨by omega, by omega⟩, hsorted, hhead, ?_, ?_⟩
  · rw [houtc]
    simp only [List.tail_cons]
    have hndadds : (adds.map Prod.fst).Nodup :=
      drawAdditional_nodup tc picks factors nAdd 0 rem (List.Nodup.filter _ hnd)
    exact ((htl.map Prod.fst).nodup_iff).mpr hndadds
  · rw [houtc]
    simp only [List.tail_cons]
    intro p hp
    obtain ⟨hmem, -⟩ := drawAdditional_mem tc picks factors nAdd 0 rem p (htl.mem_iff.mp hp)
    rw [hrem] at hmem
    have hmf := List.mem_filter.mp hmem
    refine ⟨?_, hmf.1⟩
    simpa using hmf.2

/-- Witness for C3 at the default vocabulary, three additional draws, and
constant factor 1/2. -/
theorem C3_prediction_set_witness :
    (3 ≤ (getAllPredictions defaultLabels
        (some ⟨0, 10, 100, 10, [⟨2, 1, 2⟩], ⟨0, 0, 0, 0⟩⟩) (1/2) 0 3
        (fun _ => 0) (fun _ => 1/2)).length ∧
      (getAllPredictions defaultLabels
        (some ⟨0, 10, 100, 10, [⟨2, 1, 2⟩], ⟨0, 0, 0, 0⟩⟩) (1/2) 0 3
        (fun _ => 0) (fun _ => 1/2)).length ≤ 5) ∧
    List.Sorted confGe (getAllPredictions defaultLabels
      (some ⟨0, 10, 100, 10, [⟨2, 1, 2⟩], ⟨0, 0, 0, 0⟩⟩) (1/2) 0 3
      (fun _ => 0) (fun _ => 1/2)) ∧
    (getAllPredictions defaultLabels
      (some ⟨0, 10, 100, 10, [⟨2, 1, 2⟩], ⟨0, 0, 0, 0⟩⟩) (1/2) 0 3
      (fun _ => 0) (fun _ => 1/2)).head? = some ("plastic_container", 7/10) ∧
    ((getAllPredictions defaultLabels
      (some ⟨0, 10, 100, 10, [⟨2, 1, 2⟩], ⟨0, 0, 0, 0⟩⟩) (1/2) 0 3
      (fun _ => 0) (fun _ => 1/2)).tail.map Prod.fst).Nodup ∧
    ∀ p ∈ (getAllPredictions defaultLabels
      (some ⟨0, 10, 100, 10, [⟨2, 1, 2⟩], ⟨0, 0, 0, 0⟩⟩) (1/2) 0 3
      (fun _ => 0) (fun _ => 1/2)).tail,
      p.1 ≠ "plastic_container" ∧ p.1 ∈ defaultLabels :=
  C3_prediction_set defaultLabels (some ⟨0, 10, 100, 10, [⟨2, 1, 2⟩], ⟨0, 0, 0, 0⟩⟩)
    (1/2) 0 3 (fun _ => 0) (fun _ => 1/2) "plastic_container" (7/10) _
    (by norm_num) (by norm_num) (evalPlasticContainer defaultLabels) (by decide)
    (by decide) (by norm_num [defaultLabels]) (by norm_num) (by norm_num)
    (fun _ => ⟨by norm_num, by norm_num⟩) rfl

/-- C10: each additional prediction's confidence is the top confidence
times a factor from `random.uniform(0.3, 0.8)`, hence strictly below the
top confidence on every draw, and the top prediction stays first after the
descending sort. -/
theorem C10_additional_strictly_lower (labels : List String)
    (img : Option ImgFeatures) (u : ℚ) (cIdx nAdd : ℕ) (picks : ℕ → ℕ)
    (factors : ℕ → ℚ) (top : String) (tc : ℚ)
    (hu0 : 0 ≤ u) (hu1 : u ≤ 1)
    (hfac : ∀ k, 3/10 ≤ factors k ∧ factors k ≤ 4/5)
    (hTop : getTopPrediction labels img u cIdx = some (top, tc))
    (hne : top ≠ "") :
    (∀ p ∈ drawAdditional tc picks factors 0 nAdd (labels.filter (fun l => l ≠ top)),
      (∃ j, p.2 = tc * factors j) ∧ p.2 < tc) ∧
    (getAllPredictions labels img u cIdx nAdd picks factors).head? = some (top, tc) := by
  have htc : 0 < tc :=
    lt_of_lt_of_le (by norm_num)
      (getTop_conf_bounds labels img u cIdx top tc hu0 hu1 hTop).1
  constructor
  · intro p hp
    obtain ⟨-, j, hj⟩ := drawAdditional_mem tc picks factors nAdd 0 _ p hp
    have h1 := (hfac j).1
    have h2 := (hfac j).2
    exact ⟨⟨j, hj⟩, by nlinarith⟩
  · simp only [getAllPredictions, hTop]
    rw [if_neg hne]
    apply insertionSort_head_of_strict_max
    intro p hp
    obtain ⟨-, j, hj⟩ := drawAdditional_mem tc picks factors nAdd 0 _ p hp
    have h1 := (hfac j).1
    have h2 := (hfac j).2
    nlinarith

/-- Witness for C10 at the default vocabulary, two additional draws, and
constant factor 2/5. -/
theorem C10_additional_strictly_lower_witness :
    (∀ p ∈ drawAdditional (7/10) (fun k => k) (fun _ => 2/5) 0 2
        (defaultLabels.filter (fun l => l ≠ "plastic_container")),
      (∃ j : ℕ, p.2 = (7/10 : ℚ) * (2/5)) ∧ p.2 < 7/10) ∧
    (getAllPredictions defaultLabels
      (some ⟨0, 10, 100, 10, [⟨2, 1, 2⟩], ⟨0, 0, 0, 0⟩⟩) (1/2) 0 2
      (fun k => k) (fun _ => 2/5)).head? = some ("plastic_container", 7/10) :=
  C10_additional_strictly_lower defaultLabels
    (some ⟨0, 10, 100, 10, [⟨2, 1, 2⟩], ⟨0, 0, 0, 0⟩⟩) (1/2) 0 2 (fun k => k)
    (fun _ => 2/5) "plastic_container" (7/10) (by norm_num) (by norm_num)
    (fun _ => ⟨by norm_num, by norm_num⟩) (evalPlasticContainer defaultLabels)
    (by decide)

end RecycleRight
